import Mathlib

/-!
Verification development for the `fl::string` storage engine, its
thread-scoped block recycler, and its substring-search subsystem
(`src/include/fl/string.hpp`, `src/include/fl/alloc_hooks.hpp`).

Bytes are modelled as `Nat` (the algorithms only compare byte values with
`=`, `<`, `>`).  Logical string content is a `List Nat`; raw memory handed
to the search routines is a total function `Nat → Nat` together with an
explicit length, mirroring the pointer + length interface of the C++ code.
Allocation and deallocation are recorded as explicit event lists so that
ordering and exactly-once-release properties can be stated.
-/

namespace Fl

/-! ## Block recycler (`alloc_hooks.hpp`) -/

/-- `POOL_CLASSES`: the recycler's size classes, in ascending order. -/
def POOL_CLASSES : List Nat := [64, 128, 256, 512, 1024, 2048, 4096]

/-- `pool_class_index`: first class index whose size is `≥ n`, or `none`
(`-1` in C) when `n` exceeds the largest class.  Translates the linear
scan over `POOL_CLASSES`. -/
def pool_class_index (n : Nat) : Option Nat :=
  POOL_CLASSES.findIdx? (fun c => decide (n ≤ c))

/-- `pool_alloc_usable_capacity`: usable chars (excluding the terminator)
for a raw allocation of `raw` bytes routed through the pool: the whole
class block minus one when `raw` fits a class, else `raw - 1`. -/
def pool_alloc_usable_capacity (raw : Nat) : Nat :=
  match pool_class_index raw with
  | some idx => POOL_CLASSES.getD idx 0 - 1
  | none => raw - 1

/-- Thread-local free lists: one stack of recycled block addresses per
class index.  `slots[idx][count-1]` in the C layout is the list head. -/
def PoolState : Type := Nat → List Nat

/-- `POOL_SLAB_DEPTH`: per-class stack capacity. -/
def POOL_SLAB_DEPTH : Nat := 8

/-- `default_deallocate_aligned`: push the block on its class stack when
the stack is not full; otherwise (or for an over-large size) the block
goes back to the platform allocator and the pool is unchanged. -/
def poolRelease (pool : PoolState) (p n : Nat) : PoolState :=
  match pool_class_index n with
  | none => pool
  | some idx =>
      if (pool idx).length < POOL_SLAB_DEPTH then
        fun i => if i = idx then p :: pool idx else pool i
      else pool

/-- `default_allocate_aligned`: pop the most recently released block of
the mapped class when one is available (`some addr`), else fall through
to a fresh platform block (`none`). -/
def poolAllocate (pool : PoolState) (n : Nat) : Option Nat × PoolState :=
  match pool_class_index n with
  | none => (none, pool)
  | some idx =>
      match pool idx with
      | [] => (none, pool)
      | p :: rest => (some p, fun i => if i = idx then rest else pool i)

/-! ## String storage engine (`string.hpp`) -/

/-- `SSO_CAPACITY`: bytes available in the inline buffer. -/
def SSO_CAPACITY : Nat := 23

/-- `fits_in_sso`: `n < SSO_THRESHOLD` with `SSO_THRESHOLD = 24`. -/
def fits_in_sso (n : Nat) : Bool := n < SSO_CAPACITY + 1

/-- `npos = static_cast<size_type>(-1)` on a 64-bit `size_type`. -/
def npos : Nat := 2 ^ 64 - 1

/-- The string value: logical byte content, the `HEAP_ALLOCATED_FLAG`
bit of `_flags`, and the `_data.heap.capacity` field (only meaningful
when `heap = true`; the inline variant reports `SSO_CAPACITY`). -/
structure FlString where
  content : List Nat
  heap : Bool
  cap : Nat
  deriving DecidableEq, Repr

/-- `size()` : the `_size` field, i.e. the logical length. -/
def strSize (s : FlString) : Nat := s.content.length

/-- `capacity()`: heap capacity field for the heap variant, otherwise the
inline capacity. -/
def strCapacity (s : FlString) : Nat :=
  if s.heap then s.cap else SSO_CAPACITY

/-- `_calculate_new_capacity`: 32 for small requests, otherwise bit-OR
saturation of everything below the most significant set bit (64-bit
`size_type`, so the `sizeof > 4` shift by 32 is included). -/
def calculate_new_capacity (min_capacity : Nat) : Nat :=
  if min_capacity < 32 then 32
  else
    let c1 := min_capacity ||| (min_capacity >>> 1)
    let c2 := c1 ||| (c1 >>> 2)
    let c3 := c2 ||| (c2 >>> 4)
    let c4 := c3 ||| (c3 >>> 8)
    let c5 := c4 ||| (c4 >>> 16)
    c5 ||| (c5 >>> 32)

/-- Allocation-path events, in program order. -/
inductive AllocEvent where
  | alloc (bytes : Nat)
  | copyToNew (bytes : Nat)
  | dealloc (bytes : Nat)
  deriving DecidableEq, Repr

/-- `_grow_to`: no-op when the capacity already suffices; an inline
string allocates and copies its bytes; a heap string allocates the new
buffer, copies the old bytes into it, and only then releases the old
buffer.  Events record that order. -/
def growTo (s : FlString) (minCap : Nat) : FlString × List AllocEvent :=
  if minCap ≤ strCapacity s then (s, [])
  else if s.heap then
    let allocN := calculate_new_capacity minCap + 1
    (⟨s.content, true, pool_alloc_usable_capacity allocN⟩,
      [.alloc allocN, .copyToNew s.content.length, .dealloc (s.cap + 1)])
  else
    let allocN := calculate_new_capacity minCap + 1
    (⟨s.content, true, pool_alloc_usable_capacity allocN⟩,
      [.alloc allocN, .copyToNew s.content.length])

/-- `string(const char*, len)`: inline copy when the length fits the SSO
buffer, otherwise `_allocate_heap_exact(len)` (capacity is the
pool-rounded usable capacity of the raw request `len + 1`). -/
def mkString (bytes : List Nat) : FlString :=
  if fits_in_sso bytes.length then ⟨bytes, false, 0⟩
  else ⟨bytes, true, pool_alloc_usable_capacity (bytes.length + 1)⟩

/-- Failure taxonomy for catchable errors (`std::out_of_range`). -/
inductive FlError where
  | indexOutOfRange
  deriving DecidableEq, Repr

/-- `at(pos)`: throws when `pos ≥ _size`, else the byte at `pos`. -/
def atIdx (s : FlString) (pos : Nat) : Except FlError Nat :=
  if strSize s ≤ pos then .error .indexOutOfRange
  else .ok (s.content.getD pos 0)

/-- `insert(pos, cstr, len)` (`noexcept`): silently returns the string
unchanged when `len == 0` or `pos > _size`; otherwise grows if needed
and splices the bytes in at `pos`. -/
def insertAt (s : FlString) (pos : Nat) (bytes : List Nat) :
    Except FlError FlString :=
  if bytes.length = 0 ∨ strSize s < pos then .ok s
  else
    let newSize := strSize s + bytes.length
    let s1 := if strCapacity s ≤ newSize then
        (growTo s (newSize + newSize / 2)).1 else s
    .ok ⟨s1.content.take pos ++ bytes ++ s1.content.drop pos, s1.heap, s1.cap⟩

/-- `erase(pos, len)` (`noexcept`): silently returns the string
unchanged when `pos ≥ _size`; otherwise removes `min(len, size - pos)`
bytes at `pos` (with the `len == npos` whole-tail case). -/
def eraseAt (s : FlString) (pos len : Nat) : Except FlError FlString :=
  if strSize s ≤ pos then .ok s
  else
    let len1 := if len = npos then strSize s - pos else min len (strSize s - pos)
    if len1 = 0 then .ok s
    else .ok ⟨s.content.take pos ++ s.content.drop (pos + len1), s.heap, s.cap⟩

/-- `replace(pos, len, cstr, clen)` (`noexcept`): silently returns the
string unchanged when `pos > _size`; otherwise replaces
`min(len, size - pos)` bytes at `pos` by the `clen` new bytes, growing
first when required. -/
def replaceAt (s : FlString) (pos len : Nat) (bytes : List Nat) :
    Except FlError FlString :=
  if strSize s < pos then .ok s
  else
    let len1 := min len (strSize s - pos)
    let newSize := strSize s - len1 + bytes.length
    let s1 := if strCapacity s ≤ newSize then
        (growTo s (newSize + newSize / 2)).1 else s
    .ok ⟨s1.content.take pos ++ bytes ++ s1.content.drop (pos + len1),
      s1.heap, s1.cap⟩

/-- `pop_back()`: guarded by `_size > 0`; removes the last byte, or does
nothing at all on an empty string. -/
def popBack (s : FlString) : FlString :=
  if 0 < strSize s then ⟨s.content.dropLast, s.heap, s.cap⟩ else s

/-- The moved-from / default state: `_size = 0`, `_flags = 0`,
`_data.sso[0] = '\0'` (the stale union bytes are never read once the
heap flag is clear, so the model clears `cap`). -/
def emptyString : FlString := ⟨[], false, 0⟩

/-- `string(string&&)`: the target takes `_data`, `_size`, `_flags`
verbatim; the source is reset to the empty inline state. -/
def moveCtor (a : FlString) : FlString × FlString :=
  (⟨a.content, a.heap, a.cap⟩, emptyString)

/-- `~string()`: releases `capacity + 1` bytes through the allocation
path iff the heap flag is set. -/
def destructorEvents (s : FlString) : List AllocEvent :=
  if s.heap then [.dealloc (s.cap + 1)] else []

/-- `operator=(string&&)` (non-self branch): frees the target's heap
buffer if any, steals the source's fields, resets the source. -/
def moveAssign (dst src : FlString) :
    FlString × FlString × List AllocEvent :=
  (⟨src.content, src.heap, src.cap⟩, emptyString, destructorEvents dst)

/-- `_assign_impl(cstr, len)`: a heap string whose capacity suffices is
rewritten in place (no flag change, no allocation); otherwise the old
buffer is released and the fresh inline/heap path is taken (the heap
path is `_allocate_heap(len)`, which uses the growth capacity rule). -/
def assignImpl (s : FlString) (bytes : List Nat) :
    FlString × List AllocEvent :=
  if s.heap then
    if bytes.length ≤ s.cap then (⟨bytes, true, s.cap⟩, [])
    else if fits_in_sso bytes.length then
      (⟨bytes, false, 0⟩, [.dealloc (s.cap + 1)])
    else
      let allocN := calculate_new_capacity bytes.length + 1
      (⟨bytes, true, pool_alloc_usable_capacity allocN⟩,
        [.dealloc (s.cap + 1), .alloc allocN])
  else if fits_in_sso bytes.length then (⟨bytes, false, 0⟩, [])
  else
    let allocN := calculate_new_capacity bytes.length + 1
    (⟨bytes, true, pool_alloc_usable_capacity allocN⟩, [.alloc allocN])

/-- `operator=(const string&)` (non-self branch) forwards to
`_assign_impl(other.data(), other.size())`. -/
def copyAssign (dst src : FlString) : FlString × List AllocEvent :=
  assignImpl dst src.content

/-! ## Substring search (`string.hpp`, `detail::two_way` and `find`)

The haystack and needle are total functions `Nat → Nat` (raw memory)
with explicit lengths.  Search results are byte offsets (`some off`) or
not-found (`none`), translating the `const char*`-or-`nullptr` returns.
Every loop takes an explicit fuel argument; the C loops terminate
because their position strictly increases each iteration, so a fuel of
one more than the scanned range makes the model exhaust its guard, never
its fuel. -/

/-- `memchr(base + start, target, len)` as an index search: first index
`i ∈ [start, start + len)` with `h i = target`. -/
def memchrIdx (h : Nat → Nat) (target : Nat) : Nat → Nat → Option Nat
  | 0, _ => none
  | len + 1, start =>
      if h start = target then some start
      else memchrIdx h target len (start + 1)

/-- Scalar equality scan `while (i < stop && nd i = h (pos + i)) ++i`:
returns the first index `≥ i` that is `stop` or a mismatch.  Fuel
`stop - i` reproduces the C loop exactly. -/
def scanEq (nd h : Nat → Nat) (pos stop : Nat) : Nat → Nat → Nat
  | 0, i => i
  | fuel + 1, i =>
      if i < stop then
        if nd i = h (pos + i) then scanEq nd h pos stop fuel (i + 1) else i
      else i

/-- `memcmp(nd, nd + per, cnt) == 0` starting at offset `i`: the
periodicity probe of the factorization. -/
def eqShifted (nd : Nat → Nat) (per : Nat) : Nat → Nat → Bool
  | 0, _ => true
  | cnt + 1, i => decide (nd i = nd (i + per)) && eqShifted nd per cnt (i + 1)

/-- `memcmp(h + c, nd, cnt) == 0`: full window comparison used by the
short-needle path. -/
def eqWindow (h nd : Nat → Nat) (c : Nat) : Nat → Nat → Bool
  | 0, _ => true
  | cnt + 1, i => decide (h (c + i) = nd i) && eqWindow h nd c cnt (i + 1)

/-- `two_way::max_suffix` loop body, shared shape: state `(i, j, k, per)`
with the guard `j + k ≤ m`; `j + k` grows by exactly one each iteration,
so fuel `m` suffices from the initial state `(0, 1, 1, 1)`. -/
def maxSuffixAux (nd : Nat → Nat) (m : Nat) :
    Nat → Nat → Nat → Nat → Nat → Nat × Nat
  | 0, i, _, _, per => (i, per)
  | fuel + 1, i, j, k, per =>
      if j + k ≤ m then
        let a := nd (j + k - 1)
        let b := nd (i + k - 1)
        if a < b then maxSuffixAux nd m fuel i (j + k) 1 (j + k - i)
        else if a = b then
          if k = per then maxSuffixAux nd m fuel i (j + per) 1 per
          else maxSuffixAux nd m fuel i j (k + 1) per
        else maxSuffixAux nd m fuel j (j + 1) 1 1
      else (i, per)

/-- `two_way::max_suffix`: maximal-suffix candidate index and period
under the standard byte order. -/
def maxSuffix (nd : Nat → Nat) (m : Nat) : Nat × Nat :=
  maxSuffixAux nd m m 0 1 1 1

/-- `two_way::max_suffix_rev` loop body: same state machine with the
comparison reversed (`a > b` advances `j` and updates the period). -/
def maxSuffixRevAux (nd : Nat → Nat) (m : Nat) :
    Nat → Nat → Nat → Nat → Nat → Nat × Nat
  | 0, i, _, _, per => (i, per)
  | fuel + 1, i, j, k, per =>
      if j + k ≤ m then
        let a := nd (j + k - 1)
        let b := nd (i + k - 1)
        if b < a then maxSuffixRevAux nd m fuel i (j + k) 1 (j + k - i)
        else if a = b then
          if k = per then maxSuffixRevAux nd m fuel i (j + per) 1 per
          else maxSuffixRevAux nd m fuel i j (k + 1) per
        else maxSuffixRevAux nd m fuel j (j + 1) 1 1
      else (i, per)

/-- `two_way::max_suffix_rev`: maximal-suffix candidate index and period
under the reversed byte order. -/
def maxSuffixRev (nd : Nat → Nat) (m : Nat) : Nat × Nat :=
  maxSuffixRevAux nd m m 0 1 1 1

/-- The short-needle loop of `two_way::search` (`m ≤ 8`): `memchr` for
the first byte, then a full `memcmp`, advancing one past each failed
candidate.  `limit = n - m`. -/
def shortLoop (h nd : Nat → Nat) (m limit : Nat) : Nat → Nat → Option Nat
  | 0, _ => none
  | fuel + 1, scan =>
      if scan ≤ limit then
        match memchrIdx h (nd 0) (limit - scan + 1) scan with
        | none => none
        | some c =>
            if eqWindow h nd c m 0 then some c
            else shortLoop h nd m limit fuel (c + 1)
      else none

/-- Periodic-case main loop of `two_way::search`: right-half scan from
`max (l+1) memory`, then left-half scan from `memory`; a right mismatch
at `i` shifts by `i - l` and clears the memory, a left mismatch shifts
by the period and keeps `m - per` bytes of memory. -/
def twLoopP (h : Nat → Nat) (endPos : Nat) (nd : Nat → Nat)
    (m l per : Nat) : Nat → Nat → Nat → Option Nat
  | 0, _, _ => none
  | fuel + 1, pos, memory =>
      if pos ≤ endPos then
        if scanEq nd h pos m (m - max (l + 1) memory) (max (l + 1) memory) < m then
          twLoopP h endPos nd m l per fuel
            (pos + (scanEq nd h pos m (m - max (l + 1) memory) (max (l + 1) memory) - l)) 0
        else if l < scanEq nd h pos (l + 1) (l + 1 - memory) memory then some pos
        else twLoopP h endPos nd m l per fuel (pos + per) (m - per)
      else none

/-- Non-periodic-case main loop of `two_way::search`: right-half scan
from `l + 1`, left-half scan from 0; a right mismatch at `i` shifts by
`i - l`, a left mismatch shifts by `l + 1`. -/
def twLoopNP (h : Nat → Nat) (endPos : Nat) (nd : Nat → Nat)
    (m l : Nat) : Nat → Nat → Option Nat
  | 0, _ => none
  | fuel + 1, pos =>
      if pos ≤ endPos then
        if scanEq nd h pos m (m - (l + 1)) (l + 1) < m then
          twLoopNP h endPos nd m l fuel
            (pos + (scanEq nd h pos m (m - (l + 1)) (l + 1) - l))
        else if l < scanEq nd h pos (l + 1) (l + 1) 0 then some pos
        else twLoopNP h endPos nd m l fuel (pos + (l + 1))
      else none

/-- `detail::two_way::search(haystack, n, needle, m)`: empty needle,
too-long needle, the `m ≤ 8` short path, and otherwise the critical
factorization (larger left part of the two maximal suffixes), the
periodicity probe over `l + 1` bytes, and the matching loop. -/
def twoWaySearch (h : Nat → Nat) (n : Nat) (nd : Nat → Nat) (m : Nat) :
    Option Nat :=
  if m = 0 then some 0
  else if n < m then none
  else if m ≤ 8 then shortLoop h nd m (n - m) (n + 1) 0
  else
    let s1 := maxSuffix nd m
    let s2 := maxSuffixRev nd m
    let l := if s2.1 ≤ s1.1 then s1.1 else s2.1
    let per := if s2.1 ≤ s1.1 then s1.2 else s2.2
    if eqShifted nd per (l + 1) 0 then
      twLoopP h (n - m) nd m l per (n + 1) 0 0
    else
      twLoopNP h (n - m) nd m l (n + 1) 0

/-- Brute-force reference scan: the first position in `[pos, limit]`
whose window of `m` bytes equals the needle. -/
def bruteLoop (h nd : Nat → Nat) (m limit : Nat) : Nat → Nat → Option Nat
  | 0, _ => none
  | fuel + 1, pos =>
      if pos ≤ limit then
        if eqWindow h nd pos m 0 then some pos
        else bruteLoop h nd m limit fuel (pos + 1)
      else none

/-- Brute-force reference for `find`: the smallest `p ≥ pos` with
`p + m ≤ size` and `h[p .. p+m-1] = nd[0 .. m-1]`, or `none`; the empty
needle matches at any in-range `pos`. -/
def bruteFind (h : Nat → Nat) (size : Nat) (nd : Nat → Nat) (m pos : Nat) :
    Option Nat :=
  if size < pos then none
  else if size < pos + m then none
  else bruteLoop h nd m (size - m) (size + 1) pos

/-- `fl::string::find(sv, pos)`: out-of-range start, empty needle,
single byte via `memchr`, the Two-Way tier for a remaining haystack of
at least 64 KiB with a needle of at least 2 bytes, and otherwise
`std::string_view::find` on the remaining range (modelled by its
contract: smallest in-range match offset). -/
def flFind (h : Nat → Nat) (size : Nat) (nd : Nat → Nat) (ndLen pos : Nat) :
    Option Nat :=
  if size < pos then none
  else if ndLen = 0 then some pos
  else if ndLen = 1 then memchrIdx h (nd 0) (size - pos) pos
  else if 65536 ≤ size - pos ∧ 2 ≤ ndLen then
    (twoWaySearch (fun i => h (pos + i)) (size - pos) nd ndLen).map (pos + ·)
  else
    (bruteFind (fun i => h (pos + i)) (size - pos) nd ndLen 0).map (pos + ·)

/-! ## Recycler lemmas -/

/-- Closed form of the class lookup loop. -/
theorem pool_class_index_eq (n : Nat) :
    pool_class_index n =
      if n ≤ 64 then some 0 else if n ≤ 128 then some 1
      else if n ≤ 256 then some 2 else if n ≤ 512 then some 3
      else if n ≤ 1024 then some 4 else if n ≤ 2048 then some 5
      else if n ≤ 4096 then some 6 else none := by
  simp only [pool_class_index, POOL_CLASSES, List.findIdx?_cons, List.findIdx?_nil,
    decide_eq_true_eq]

/-- The spec-side notion for C4, written from the claim's words: `c` is
the smallest recycler size class at least `raw`. -/
def IsSmallestClassGE (raw c : Nat) : Prop :=
  c ∈ POOL_CLASSES ∧ raw ≤ c ∧ ∀ d ∈ POOL_CLASSES, raw ≤ d → c ≤ d

/-! ## Growth-capacity lemmas -/

/-- One bit-OR saturation stage. -/
def satStep (x s : Nat) : Nat := x ||| (x >>> s)

/-- The cascade of `_calculate_new_capacity` as six saturation stages. -/
theorem calc_eq_stages (n : Nat) (h : ¬ n < 32) :
    calculate_new_capacity n =
      satStep (satStep (satStep (satStep (satStep (satStep n 1) 2) 4) 8) 16) 32 := by
  unfold calculate_new_capacity satStep
  rw [if_neg h]

/-- A saturation stage widens the bit lookahead window from `w` to
`2w + 1`. -/
theorem satStep_window (n x w : Nat)
    (hx : ∀ i, x.testBit i = true ↔ ∃ j, i ≤ j ∧ j ≤ i + w ∧ n.testBit j = true) :
    ∀ i, (satStep x (w + 1)).testBit i = true ↔
      ∃ j, i ≤ j ∧ j ≤ i + (2 * w + 1) ∧ n.testBit j = true := by
  intro i
  unfold satStep
  rw [Nat.testBit_lor, Nat.testBit_shiftRight, Bool.or_eq_true]
  constructor
  · rintro (hl | hr)
    · obtain ⟨j, h1, h2, h3⟩ := (hx i).mp hl
      exact ⟨j, h1, by omega, h3⟩
    · obtain ⟨j, h1, h2, h3⟩ := (hx (w + 1 + i)).mp hr
      exact ⟨j, by omega, by omega, h3⟩
  · rintro ⟨j, h1, h2, h3⟩
    by_cases hj : j ≤ i + w
    · exact Or.inl ((hx i).mpr ⟨j, h1, hj, h3⟩)
    · exact Or.inr ((hx (w + 1 + i)).mpr ⟨j, by omega, by omega, h3⟩)

/-- Degenerate window of width 0. -/
theorem base_window (n : Nat) :
    ∀ i, n.testBit i = true ↔ ∃ j, i ≤ j ∧ j ≤ i + 0 ∧ n.testBit j = true := by
  intro i
  constructor
  · intro h
    exact ⟨i, le_refl i, by omega, h⟩
  · rintro ⟨j, h1, h2, h3⟩
    have : j = i := by omega
    subst this
    exact h3

/-- The most significant bit of a positive number is set. -/
theorem testBit_size_pred (n : Nat) (hn : 0 < n) :
    n.testBit (n.size - 1) = true := by
  have hp : 0 < n.size := Nat.size_pos.mpr hn
  have h1 : 2 ^ (n.size - 1) ≤ n := Nat.lt_size.mp (by omega)
  have h2 : n < 2 ^ n.size := Nat.lt_size_self n
  rw [Nat.testBit_to_div_mod]
  have hdiv : n / 2 ^ (n.size - 1) = 1 := by
    apply Nat.div_eq_of_lt_le
    · simpa using h1
    · have h3 : n.size - 1 + 1 = n.size := by omega
      calc n < 2 ^ n.size := h2
      _ = 2 ^ (n.size - 1 + 1) := by rw [h3]
      _ = 2 ^ (n.size - 1) * 2 := by rw [Nat.pow_succ]
      _ = (1 + 1) * 2 ^ (n.size - 1) := by ring
  simp [hdiv]

/-- For a 64-bit value of at least 32, the OR cascade saturates every
bit below the most significant one. -/
theorem calc_eq_two_pow_size (n : Nat) (h32 : 32 ≤ n) (h64 : n < 2 ^ 64) :
    calculate_new_capacity n = 2 ^ n.size - 1 := by
  rw [calc_eq_stages n (by omega)]
  have w1 := satStep_window n n 0 (base_window n)
  have w2 := satStep_window n _ 1 w1
  have w3 := satStep_window n _ 3 w2
  have w4 := satStep_window n _ 7 w3
  have w5 := satStep_window n _ 15 w4
  have w6 := satStep_window n _ 31 w5
  apply Nat.eq_of_testBit_eq
  intro i
  rw [Nat.testBit_two_pow_sub_one]
  by_cases hi : i < n.size
  · have hsz64 : n.size ≤ 64 := Nat.size_le.mpr h64
    have htop := testBit_size_pred n (by omega)
    have hbit : (satStep (satStep (satStep (satStep (satStep (satStep n 1) 2) 4) 8) 16)
        32).testBit i = true :=
      (w6 i).mpr ⟨n.size - 1, by omega, by omega, htop⟩
    simp [hbit, hi]
  · rw [decide_eq_false hi]
    by_contra hcon
    rw [Bool.not_eq_false] at hcon
    obtain ⟨j, h1, h2, h3⟩ := (w6 i).mp hcon
    have hj1 : 2 ^ j ≤ n := Nat.testBit_implies_ge h3
    have hj2 : j < n.size := Nat.lt_size.mpr hj1
    omega

/-! ## Event-order predicates -/

/-- Is the event a release through the deallocation path. -/
def isDealloc : AllocEvent → Bool
  | .dealloc _ => true
  | _ => false

/-- Is the event an allocation request. -/
def isAlloc : AllocEvent → Bool
  | .alloc _ => true
  | _ => false

/-! ## Claim theorems -/

/-- C10: calling pop_back() on an empty string is a safe no-op; the
string state is returned entirely unchanged. -/
theorem popBack_empty_is_noop (s : FlString) (h : strSize s = 0) :
    popBack s = s := by
  unfold popBack
  rw [h]
  simp

/-- Witness for C10 at the empty string. -/
theorem popBack_empty_is_noop_witness :
    strSize emptyString = 0 ∧ popBack emptyString = emptyString :=
  ⟨rfl, popBack_empty_is_noop emptyString rfl⟩

/-- C8: at(pos) fails with the out-of-range condition exactly when the
position reaches the length, and returns the byte stored at the index
otherwise. -/
theorem at_checked_access (s : FlString) (pos : Nat) :
    (strSize s ≤ pos → atIdx s pos = .error .indexOutOfRange) ∧
    ∀ h : pos < strSize s, atIdx s pos = .ok (s.content.get ⟨pos, h⟩) := by
  constructor
  · intro h
    unfold atIdx
    rw [if_pos h]
  · intro h
    unfold atIdx
    rw [if_neg (by omega)]
    simp [List.getD_eq_getElem?_getD, List.getElem?_eq_getElem h]

/-- Witness for C8: both branches at a concrete three-byte string. -/
theorem at_checked_access_witness :
    atIdx ⟨[5, 6, 7], false, 0⟩ 9 = .error .indexOutOfRange ∧
    atIdx ⟨[5, 6, 7], false, 0⟩ 1 = .ok 6 :=
  ⟨(at_checked_access ⟨[5, 6, 7], false, 0⟩ 9).1 (by decide),
   (at_checked_access ⟨[5, 6, 7], false, 0⟩ 1).2 (by decide)⟩

/-- C2 counterexample: at `pos = 4` on a string of size 3, the cited
position-taking mutators return the string unchanged and raise no
IndexOutOfRange failure at all. -/
theorem mutators_never_throw_counterexample :
    insertAt ⟨[1, 2, 3], false, 0⟩ 4 [9] = .ok ⟨[1, 2, 3], false, 0⟩ ∧
    eraseAt ⟨[1, 2, 3], false, 0⟩ 4 npos = .ok ⟨[1, 2, 3], false, 0⟩ ∧
    replaceAt ⟨[1, 2, 3], false, 0⟩ 4 1 [9] = .ok ⟨[1, 2, 3], false, 0⟩ ∧
    insertAt ⟨[1, 2, 3], false, 0⟩ 4 [9] ≠ .error .indexOutOfRange ∧
    eraseAt ⟨[1, 2, 3], false, 0⟩ 4 npos ≠ .error .indexOutOfRange ∧
    replaceAt ⟨[1, 2, 3], false, 0⟩ 4 1 [9] ≠ .error .indexOutOfRange := by
  refine ⟨rfl, rfl, rfl, ?_, ?_, ?_⟩ <;> intro hc <;> exact nomatch hc

/-- C2 (amended): the position-taking mutators insert/erase/replace with
a position beyond size() are silent no-ops returning the unchanged
string; no catchable failure is produced. -/
theorem mutators_out_of_range_silent (s : FlString) (pos len : Nat)
    (bytes : List Nat) (h : strSize s < pos) :
    insertAt s pos bytes = .ok s ∧ eraseAt s pos len = .ok s ∧
    replaceAt s pos len bytes = .ok s := by
  refine ⟨?_, ?_, ?_⟩
  · unfold insertAt
    rw [if_pos (Or.inr h)]
  · unfold eraseAt
    rw [if_pos (by omega)]
  · unfold replaceAt
    rw [if_pos h]

/-- Witness for amended C2 at a concrete out-of-range position. -/
theorem mutators_out_of_range_silent_witness :
    strSize ⟨[1, 2, 3], false, 0⟩ < 7 ∧
    (insertAt ⟨[1, 2, 3], false, 0⟩ 7 [4] = .ok ⟨[1, 2, 3], false, 0⟩ ∧
     eraseAt ⟨[1, 2, 3], false, 0⟩ 7 2 = .ok ⟨[1, 2, 3], false, 0⟩ ∧
     replaceAt ⟨[1, 2, 3], false, 0⟩ 7 2 [4] = .ok ⟨[1, 2, 3], false, 0⟩) :=
  ⟨by decide, mutators_out_of_range_silent ⟨[1, 2, 3], false, 0⟩ 7 2 [4] (by decide)⟩

/-- C3 counterexample: growing a 30-byte heap string of capacity 63 to a
required capacity of 100 emits allocate(128), copy(30), release(64) in
that order; the release does not precede the allocation. -/
theorem grow_release_order_counterexample :
    (growTo ⟨List.replicate 30 7, true, 63⟩ 100).2 =
      [.alloc 128, .copyToNew 30, .dealloc 64] ∧
    ¬ ((growTo ⟨List.replicate 30 7, true, 63⟩ 100).2.findIdx isDealloc <
       (growTo ⟨List.replicate 30 7, true, 63⟩ 100).2.findIdx isAlloc) := by
  refine ⟨by decide, by decide⟩

/-- C3 (amended): a heap-to-heap grow requests the new larger buffer
first, copies the old bytes into it second, and releases the old buffer
through the recycler last; content is preserved and the stored capacity
is the pool-rounded usable capacity of the new request. -/
theorem grow_alloc_copy_then_release (s : FlString) (minCap : Nat)
    (hh : s.heap = true) (hc : strCapacity s < minCap) :
    growTo s minCap =
      (⟨s.content, true, pool_alloc_usable_capacity (calculate_new_capacity minCap + 1)⟩,
       [.alloc (calculate_new_capacity minCap + 1), .copyToNew s.content.length,
        .dealloc (s.cap + 1)]) := by
  unfold growTo
  rw [if_neg (by omega), if_pos hh]

/-- Witness for amended C3 at the concrete grow of the counterexample
input shape. -/
theorem grow_alloc_copy_then_release_witness :
    (⟨List.replicate 30 7, true, 63⟩ : FlString).heap = true ∧
    strCapacity ⟨List.replicate 30 7, true, 63⟩ < 100 ∧
    growTo ⟨List.replicate 30 7, true, 63⟩ 100 =
      (⟨List.replicate 30 7, true, 127⟩,
       [.alloc 128, .copyToNew 30, .dealloc 64]) := by
  refine ⟨rfl, by decide, ?_⟩
  have h := grow_alloc_copy_then_release ⟨List.replicate 30 7, true, 63⟩ 100 rfl (by decide)
  simpa using h

/-- C7: after a move construction the target holds the source's entire
value (content, size, representation), the source is left empty and
inline, destroying the source releases nothing, and the total
deallocation across both values equals what the original alone would
have released (exactly-once release, no double free); likewise for a
move assignment into any target. -/
theorem move_leaves_source_empty (a : FlString) :
    (moveCtor a).1 = a ∧
    (moveCtor a).2 = emptyString ∧
    strSize (moveCtor a).2 = 0 ∧
    (moveCtor a).2.heap = false ∧
    destructorEvents (moveCtor a).2 = [] ∧
    destructorEvents (moveCtor a).1 ++ destructorEvents (moveCtor a).2 =
      destructorEvents a ∧
    ∀ dst, (moveAssign dst a).1 = a ∧
      (moveAssign dst a).2.1 = emptyString ∧
      destructorEvents (moveAssign dst a).2.1 = [] := by
  refine ⟨rfl, rfl, rfl, rfl, rfl, by simp [destructorEvents, moveCtor, emptyString],
    fun dst => ⟨rfl, rfl, rfl⟩⟩

/-- C9: assigning `len ≤ capacity` bytes into a heap string rewrites the
buffer in place: new content, still heap-backed, capacity unchanged, no
allocation or deallocation events, and the string does not return to
the inline variant even when the new length fits the SSO buffer; the
copy-assignment operator inherits this through `_assign_impl`. -/
theorem heap_assign_in_place (s : FlString) (bytes : List Nat)
    (hh : s.heap = true) (hlen : bytes.length ≤ s.cap) :
    assignImpl s bytes = (⟨bytes, true, s.cap⟩, []) ∧
    strCapacity (assignImpl s bytes).1 = strCapacity s ∧
    (assignImpl s bytes).1.heap = true ∧
    ∀ src : FlString, src.content = bytes →
      copyAssign s src = (⟨bytes, true, s.cap⟩, []) := by
  have hmain : assignImpl s bytes = (⟨bytes, true, s.cap⟩, []) := by
    unfold assignImpl
    rw [if_pos hh, if_pos hlen]
  refine ⟨hmain, ?_, ?_, ?_⟩
  · rw [hmain]
    simp [strCapacity, hh]
  · rw [hmain]
  · intro src hsrc
    unfold copyAssign
    rw [hsrc, hmain]

/-- C4: for a raw request of `req + 1` bytes (requested capacity plus
terminator) that fits the recycler (raw ≤ 4096), the usable capacity is
the smallest size class at least the raw request, minus one; it is at
least the requested capacity; and both the exact-allocation constructor
path and the grow path store exactly this rounded value as the
capacity() of the string. -/
theorem capacity_is_pool_rounded (req : Nat) (hfit : req + 1 ≤ 4096) :
    (∃ c, IsSmallestClassGE (req + 1) c ∧
      pool_alloc_usable_capacity (req + 1) = c - 1) ∧
    req ≤ pool_alloc_usable_capacity (req + 1) ∧
    (∀ bytes : List Nat, bytes.length = req → SSO_CAPACITY < req →
      strCapacity (mkString bytes) = pool_alloc_usable_capacity (req + 1)) ∧
    (∀ (s : FlString) (minCap : Nat), strCapacity s < minCap →
      calculate_new_capacity minCap = req →
      strCapacity (growTo s minCap).1 = pool_alloc_usable_capacity (req + 1)) := by
  have hmk : ∀ bytes : List Nat, bytes.length = req → SSO_CAPACITY < req →
      strCapacity (mkString bytes) = pool_alloc_usable_capacity (req + 1) := by
    intro bytes hb hgt
    unfold mkString
    rw [if_neg (by simp [fits_in_sso, hb, SSO_CAPACITY] at hgt ⊢; omega)]
    simp [strCapacity, hb]
  have hgrow : ∀ (s : FlString) (minCap : Nat), strCapacity s < minCap →
      calculate_new_capacity minCap = req →
      strCapacity (growTo s minCap).1 = pool_alloc_usable_capacity (req + 1) := by
    intro s minCap hlt hcalc
    unfold growTo
    rw [if_neg (by omega)]
    by_cases hh : s.heap <;> simp [hh, strCapacity, hcalc]
  refine ⟨?_, ?_, hmk, hgrow⟩
  · unfold pool_alloc_usable_capacity
    rw [pool_class_index_eq]
    by_cases h0 : req + 1 ≤ 64
    · rw [if_pos h0]
      exact ⟨64, ⟨by decide, h0, by
        intro d hd _; simp [POOL_CLASSES] at hd; omega⟩, rfl⟩
    · rw [if_neg h0]
      by_cases h1 : req + 1 ≤ 128
      · rw [if_pos h1]
        exact ⟨128, ⟨by decide, h1, by
          intro d hd hrd; simp [POOL_CLASSES] at hd; omega⟩, rfl⟩
      · rw [if_neg h1]
        by_cases h2 : req + 1 ≤ 256
        · rw [if_pos h2]
          exact ⟨256, ⟨by decide, h2, by
            intro d hd hrd; simp [POOL_CLASSES] at hd; omega⟩, rfl⟩
        · rw [if_neg h2]
          by_cases h3 : req + 1 ≤ 512
          · rw [if_pos h3]
            exact ⟨512, ⟨by decide, h3, by
              intro d hd hrd; simp [POOL_CLASSES] at hd; omega⟩, rfl⟩
          · rw [if_neg h3]
            by_cases h4 : req + 1 ≤ 1024
            · rw [if_pos h4]
              exact ⟨1024, ⟨by decide, h4, by
                intro d hd hrd; simp [POOL_CLASSES] at hd; omega⟩, rfl⟩
            · rw [if_neg h4]
              by_cases h5 : req + 1 ≤ 2048
              · rw [if_pos h5]
                exact ⟨2048, ⟨by decide, h5, by
                  intro d hd hrd; simp [POOL_CLASSES] at hd; omega⟩, rfl⟩
              · rw [if_neg h5]
                rw [if_pos hfit]
                exact ⟨4096, ⟨by decide, hfit, by
                  intro d hd hrd; simp [POOL_CLASSES] at hd; omega⟩, rfl⟩
  · unfold pool_alloc_usable_capacity
    rw [pool_class_index_eq]
    split_ifs <;> simp [POOL_CLASSES] <;> omega

/-- C5: the growth-capacity computation returns 32 for any required
size below 32, and otherwise the smallest value of the form 2^k - 1
that is at least the required size. -/
theorem growth_capacity_rule (n : Nat) (h64 : n < 2 ^ 64) :
    (n < 32 → calculate_new_capacity n = 32) ∧
    (32 ≤ n → IsLeast {v | (∃ k, v = 2 ^ k - 1) ∧ n ≤ v}
      (calculate_new_capacity n)) := by
  constructor
  · intro h
    unfold calculate_new_capacity
    rw [if_pos h]
  · intro h32
    rw [calc_eq_two_pow_size n h32 h64]
    constructor
    · refine ⟨⟨n.size, rfl⟩, ?_⟩
      have := Nat.lt_size_self n
      omega
    · rintro v ⟨⟨k, rfl⟩, hnv⟩
      have hpos : 0 < 2 ^ k := Nat.pos_pow_of_pos k (by omega)
      have hlt : n < 2 ^ k := by omega
      have hk : n.size ≤ k := Nat.size_le.mpr hlt
      have := Nat.pow_le_pow_right (by omega : 0 < 2) hk
      omega

/-- Witness for C5: at 100 the computed capacity is 127, the least
power-of-two-minus-one at or above 100; at 7 the computed capacity is
the floor value 32. -/
theorem growth_capacity_rule_witness :
    (100 : Nat) < 2 ^ 64 ∧ calculate_new_capacity 100 = 127 ∧
    calculate_new_capacity 7 = 32 ∧
    IsLeast {v | (∃ k, v = 2 ^ k - 1) ∧ 100 ≤ v} (calculate_new_capacity 100) :=
  ⟨by norm_num, by decide, (growth_capacity_rule 7 (by norm_num)).1 (by norm_num),
   (growth_capacity_rule 100 (by norm_num)).2 (by norm_num)⟩

/-- Witness for C4: requesting 100 chars (raw 101) rounds into the
128-byte class, and the constructor stores capacity 127 ≥ 100. -/
theorem capacity_is_pool_rounded_witness :
    100 + 1 ≤ 4096 ∧
    (∃ c, IsSmallestClassGE 101 c ∧ pool_alloc_usable_capacity 101 = c - 1) ∧
    100 ≤ pool_alloc_usable_capacity 101 ∧
    strCapacity (mkString (List.replicate 100 7)) = 127 := by
  have h := capacity_is_pool_rounded 100 (by decide)
  refine ⟨by decide, h.1, h.2.1, ?_⟩
  have h2 := h.2.2.1 (List.replicate 100 7) (by simp) (by decide)
  rw [h2]
  decide

/-- C6: releasing a block whose size maps to a class holding fewer than
8 recycled blocks, then allocating any size mapping to the same class,
returns exactly the released block (most-recently-freed, stack order)
and restores the pool to its prior state. -/
theorem recycler_stack_reuse (pool : PoolState) (b n1 n2 idx : Nat)
    (h1 : pool_class_index n1 = some idx) (h2 : pool_class_index n2 = some idx)
    (hlen : (pool idx).length < POOL_SLAB_DEPTH) :
    poolAllocate (poolRelease pool b n1) n2 = (some b, pool) := by
  have hrel : poolRelease pool b n1 =
      fun i => if i = idx then b :: pool idx else pool i := by
    simp only [poolRelease, h1]
    rw [if_pos hlen]
  rw [hrel]
  simp only [poolAllocate, h2]
  simp only [eq_self_iff_true, if_true, ite_true]
  simp only [Prod.mk.injEq]
  refine ⟨trivial, ?_⟩
  funext i
  by_cases hi : i = idx <;> simp [hi]

/-- Witness for C6: sizes 100 and 65 both map to class index 1
(128 bytes); releasing block 42 into the empty pool and allocating
returns 42. -/
theorem recycler_stack_reuse_witness :
    pool_class_index 100 = some 1 ∧ pool_class_index 65 = some 1 ∧
    ((fun _ => [] : PoolState) 1).length < POOL_SLAB_DEPTH ∧
    poolAllocate (poolRelease (fun _ => []) 42 100) 65 =
      (some 42, fun _ => []) :=
  ⟨by decide, by decide, by decide,
   recycler_stack_reuse (fun _ => []) 42 100 65 1 (by decide) (by decide) (by decide)⟩

/-- Witness for C9: a 30-byte heap string of capacity 63 assigned a
2-byte content (which would fit inline) stays heap with capacity 63. -/
theorem heap_assign_in_place_witness :
    (⟨List.replicate 30 7, true, 63⟩ : FlString).heap = true ∧
    ([1, 2] : List Nat).length ≤ 63 ∧
    assignImpl ⟨List.replicate 30 7, true, 63⟩ [1, 2] =
      (⟨[1, 2], true, 63⟩, []) :=
  ⟨rfl, by decide,
   (heap_assign_in_place ⟨List.replicate 30 7, true, 63⟩ [1, 2] rfl (by decide)).1⟩

/-! ## C1: concrete inputs exhibiting the Two-Way tier divergence -/

/-- Haystack memory: bytes 0..13 hold `0,0,1,1,1,0,0,1,1,0,1,0,1,1`,
every byte from index 14 on is 2.  The search range has size 65560, so
the Two-Way tier of `find` (remaining ≥ 65536) applies. -/
def hC1 : Nat → Nat := fun i =>
  [0, 0, 1, 1, 1, 0, 0, 1, 1, 0, 1, 0, 1, 1].getD i 2

/-- Needle memory: the 10 bytes `1,1,1,0,0,1,1,0,1,0` (present in the
haystack at offset 2). -/
def ndC1 : Nat → Nat := fun i =>
  [1, 1, 1, 0, 0, 1, 1, 0, 1, 0].getD i 2

/-- Every padding byte of the haystack is 2. -/
theorem hC1_pad (x : Nat) (hx : 14 ≤ x) : hC1 x = 2 := by
  unfold hC1
  exact List.getD_eq_default _ _ (by simpa using hx)

/-- One right-half-mismatch iteration of the non-periodic loop on the
C1 inputs: at an in-range position with the right-half scan stopping at
a mismatch index `i < 10`, the loop shifts by `i - l` with `l = 3`. -/
theorem np_step (fuel pos i : Nat) (hpos : pos ≤ 65550)
    (hscan : scanEq ndC1 hC1 pos 10 6 4 = i) (hi : i < 10) :
    twLoopNP hC1 65550 ndC1 10 3 (fuel + 1) pos =
      twLoopNP hC1 65550 ndC1 10 3 fuel (pos + (i - 3)) := by
  simp only [twLoopNP]
  rw [if_pos hpos]
  norm_num
  rw [hscan, if_pos hi]

/-- In the all-2 padding region the right-half scan mismatches at its
first probe (needle byte 4 is 0, the haystack byte is 2). -/
theorem pad_scan (pos : Nat) (hpos : 10 ≤ pos) :
    scanEq ndC1 hC1 pos 10 6 4 = 4 := by
  have h4 : hC1 (pos + 4) = 2 := hC1_pad _ (by omega)
  rw [show (6 : Nat) = 5 + 1 from rfl]
  simp only [scanEq]
  rw [if_pos (by norm_num)]
  rw [show ndC1 4 = 0 from rfl, h4]
  norm_num

/-- Once the candidate position reaches the padding region the
non-periodic loop shifts by one forever and returns not-found. -/
theorem np_pad : ∀ fuel pos, 10 ≤ pos →
    twLoopNP hC1 65550 ndC1 10 3 fuel pos = none := by
  intro fuel
  induction fuel with
  | zero => intro pos _; rfl
  | succ fuel ih =>
    intro pos hpos
    by_cases hle : pos ≤ 65550
    · have h := np_step fuel pos 4 hle (pad_scan pos hpos) (by norm_num)
      rw [h]
      exact ih (pos + (4 - 3)) (by omega)
    · simp only [twLoopNP]
      rw [if_neg hle]

/-- The full run of the non-periodic loop on the C1 inputs: seven
concrete iterations carry the candidate position from 0 over the sole
occurrence at 2 (position 2 is skipped by the shift from 1 to 3), and
the padding region yields not-found. -/
theorem loop_eval : twLoopNP hC1 65550 ndC1 10 3 65561 0 = none := by
  have e0 := np_step 65560 0 4 (by norm_num) (by decide) (by norm_num)
  have e1 := np_step 65559 1 5 (by norm_num) (by decide) (by norm_num)
  have e2 := np_step 65558 3 4 (by norm_num) (by decide) (by norm_num)
  have e3 := np_step 65557 4 4 (by norm_num) (by decide) (by norm_num)
  have e4 := np_step 65556 5 6 (by norm_num) (by decide) (by norm_num)
  have e5 := np_step 65555 8 4 (by norm_num) (by decide) (by norm_num)
  have e6 := np_step 65554 9 4 (by norm_num) (by decide) (by norm_num)
  norm_num at e0 e1 e2 e3 e4 e5 e6
  rw [show (65561 : Nat) = 65560 + 1 from rfl, e0, e1, e2, e3, e4, e5, e6]
  exact np_pad 65554 10 (by norm_num)

/-- `two_way::search` on the C1 inputs reduces to the non-periodic loop
(the factorization picks `l = 3`, `per = 6` and the periodicity probe
fails) and misses the occurrence. -/
theorem search_eval : twoWaySearch hC1 65560 ndC1 10 = none := by
  have hunfold : twoWaySearch hC1 65560 ndC1 10 =
      twLoopNP hC1 65550 ndC1 10 3 65561 0 := by
    unfold twoWaySearch
    rw [if_neg (by norm_num : ¬ (10 = 0)), if_neg (by norm_num : ¬ (65560 < 10)),
        if_neg (by norm_num : ¬ (10 ≤ 8))]
    simp only [show maxSuffix ndC1 10 = (0, 10) from by decide,
               show maxSuffixRev ndC1 10 = (3, 6) from by decide]
    norm_num
    rw [show eqShifted ndC1 6 4 0 = false from by decide]
    intro hfc
    exact Bool.noConfusion hfc
  rw [hunfold]
  exact loop_eval

/-- C1: on a 65560-byte haystack holding the needle at offset 2, with
start position 0, `find` takes the ≥ 64 KiB Two-Way tier and returns
not-found, while the brute-force reference scan returns 2. -/
theorem find_misses_match_counterexample :
    flFind hC1 65560 ndC1 10 0 = none ∧
    bruteFind hC1 65560 ndC1 10 0 = some 2 ∧
    flFind hC1 65560 ndC1 10 0 ≠ bruteFind hC1 65560 ndC1 10 0 := by
  have hshift : (fun i => hC1 (0 + i)) = hC1 := by
    funext i
    rw [Nat.zero_add]
  have hfind : flFind hC1 65560 ndC1 10 0 = none := by
    have h1 : flFind hC1 65560 ndC1 10 0 =
        (twoWaySearch (fun i => hC1 (0 + i)) 65560 ndC1 10).map (0 + ·) := by
      unfold flFind
      rw [if_neg (by norm_num : ¬ (65560 < 0)), if_neg (by norm_num : ¬ (10 = 0)),
          if_neg (by norm_num : ¬ (10 = 1)),
          if_pos (by norm_num : 65536 ≤ 65560 - 0 ∧ 2 ≤ 10)]
    rw [h1, hshift, search_eval]
    rfl
  have hbrute : bruteFind hC1 65560 ndC1 10 0 = some 2 := by decide
  refine ⟨hfind, hbrute, ?_⟩
  rw [hfind, hbrute]
  intro hcontra
  exact nomatch hcontra

end Fl
